import Mathlib

/-!
# Verification of the ppg-processor pipeline

Shallow embedding of the signal-to-metrics pipeline of the `ppg-processor`
repository and proofs about it.  The embedded pieces are:

* `readPpgFile` — timestamp reconstruction / format classification from
  `ppg_processor/utils/io_utils.py::read_ppg_file`;
* `timeRangeFilter` — the time-of-day filtering path of
  `ppg_processor/processing/directory_worker.py::_process_directory`;
* `hrvBins` / `calculateMetrics` / `calculateHrvMetrics` — the windowed HRV
  aggregation of `ppg_processor/processing/hrv_metrics.py`;
* `ppiPipeline` — the sort / diff / clean PPI steps of
  `ppg_processor/processing/file_worker.py::run` (lines 146-164);
* `batchParticipantLoop` / `directoryFolderLoop` — the unit loops of
  `batch_worker.py::run` and `directory_worker.py::_process_directory`.

Conventions: absolute timestamps are integer milliseconds since the epoch,
clock times of day are minutes since midnight, numeric data are integers or
rationals (exact counterparts of the float arithmetic where every value
involved is exactly representable).
-/

namespace PpgProc

/-! ## io_utils.read_ppg_file -/

/-- Condition of the absolute-timestamp-with-batching branch of
`read_ppg_file`: the first column contains a zero and the first non-zero
entry exceeds 1e9 (`first_col.eq(0).any()` and `non_zero_values[0] >
1000000000`; the empty-`non_zero_values` guard is absorbed by `headI = 0`). -/
def batchCondB (col0 : List Int) : Bool :=
  col0.any (· = 0) && decide (1000000000 < (col0.filter (· ≠ 0)).headI)

/-- Condition of the delta branch: `first_col.max() <= 10000` (on an empty
column the pandas comparison with NaN is falsy). -/
def maxLeB (col0 : List Int) : Bool :=
  match col0.maximum with
  | some m => decide (m ≤ 10000)
  | none => false

/-- Batch branch of `read_ppg_file`: the indices of the non-zero entries,
extended by `len(df)`, delimit batches; every row of a batch receives the
batch's anchor timestamp (seconds, converted to ms) plus 20 ms per row inside
the batch (`sample_rate = 0.02`).  Rows before the first anchor keep the
initial `pd.NaT`, modelled as `none`. -/
def batchTimes (col0 : List Int) : List (Option Int) :=
  let tidx := ((List.range col0.length).filter (fun i => col0.getD i 0 ≠ 0)) ++ [col0.length]
  (List.range col0.length).map (fun i =>
    match (tidx.zip tidx.tail).find? (fun p => decide (p.1 ≤ i) && decide (i < p.2)) with
    | some p => some ((col0.getD p.1 0) * 1000 + ((i - p.1 : Nat) : Int) * 20)
    | none => none)

/-- Delta branch of `read_ppg_file`: `cumulative_delta = col0.cumsum()`; row 0
keeps `start_time`, row `i > 0` gets `start_time + cumulative_delta[i]`
milliseconds. -/
def deltaTimes (startTime : Int) (col0 : List Int) : List (Option Int) :=
  let cums := (col0.scanl (· + ·) 0).tail
  (List.range col0.length).map (fun i =>
    if i = 0 then some (startTime * 1000)
    else some (startTime * 1000 + cums.getD i 0))

/-- `pd.date_range(start, periods := n, freq := 20ms)` in milliseconds. -/
def rangeTimes (startMs : Int) (n : Nat) : List (Option Int) :=
  (List.range n).map (fun i => some (startMs + (i : Int) * 20))

/-- `is_incrementing_sequence` with tolerance 0.1, in exact rational
arithmetic: fewer than two entries count as incrementing; otherwise more than
90% of the successive differences must be within `0.1 * mean` of their mean. -/
def isIncrementingSeq (arr : List Int) : Bool :=
  if arr.length < 2 then true
  else
    let diffs : List ℚ := List.zipWith (fun a b => ((a - b : Int) : ℚ)) arr.tail arr
    let meanDiff : ℚ := diffs.sum / (diffs.length : ℚ)
    decide ((((diffs.filter (fun d => |d - meanDiff| < (1/10) * meanDiff)).length : ℚ) /
      (diffs.length : ℚ)) > 9/10)

/-- `read_ppg_file` (io_utils.py), restricted to the first-column
classification and timestamp reconstruction.  `col0` is the integer first
column, `folderGiven` tells whether a `folder_path` was passed (the
incrementing branch requires one), `infoStart` is the `start_time` found in
`info.txt` (if any), and `mtimeMs` is the file's modification time in
milliseconds.  The result is the derived per-row timestamp column in
milliseconds (`none` = `pd.NaT`).  The second column of the dead
`'col1' in df.columns` test is never present after the renaming to
`['col0','P0','P1','P2','AMBIENT',...]`, so that sub-branch is omitted. -/
def readPpgFile (col0 : List Int) (folderGiven : Bool) (infoStart : Option Int)
    (mtimeMs : Int) : Except String (List (Option Int)) :=
  if batchCondB col0 then
    .ok (batchTimes col0)
  else if maxLeB col0 then
    match infoStart with
    | none => .error "Cannot find start_time in info.txt file"
    | some s => .ok (deltaTimes s col0)
  else if isIncrementingSeq col0 && folderGiven && infoStart.isSome then
    .ok (rangeTimes (infoStart.getD 0 * 1000) col0.length)
  else
    .ok (rangeTimes (mtimeMs - (col0.length : Int) * 20) col0.length)

/-- Modelled from the spec (§4.1 / claim wording): the reconstruction the
spec attributes to the delta format — `n` timestamps linearly equally spaced
from `start` to `start + total` (milliseconds), i.e. a `linspace` whose value
only depends on the *sum* of the deltas.  Used to compare the spec's words
with the code's `deltaTimes`. -/
def deltaLinspaceSpec (startTime total : Int) (n : Nat) : List ℚ :=
  (List.range n).map (fun i =>
    (startTime : ℚ) * 1000 + (i : ℚ) * (total : ℚ) / ((n : ℚ) - 1))

/-- Modelled from the spec (§4.1 / claim wording): the reconstruction the
spec attributes to the batch format — a single `linspace` over the row index
between the first and the last non-zero anchor (milliseconds). -/
def batchLinspaceSpec (firstAnchor lastAnchor : Int) (n : Nat) : List ℚ :=
  (List.range n).map (fun i =>
    (firstAnchor : ℚ) * 1000 +
      (i : ℚ) * (((lastAnchor - firstAnchor) : ℚ) * 1000) / ((n : ℚ) - 1))

/-! ## directory_worker time-range filtering -/

/-- The time-range filtering path of
`DirectoryProcessingWorker._process_directory` (lines 116-139 and the revert
at 195-197), taken whenever `use_time_range` is enabled and both bounds are
given.  `startT`/`endT` are the parsed `HH:MM` bounds in minutes since
midnight, `times` the absolute datetime index in milliseconds.  Both bounds
are shifted forward by 12 hours unconditionally; if the shifted start exceeds
the shifted end the worker emits the configuration error and returns.
Otherwise every timestamp is shifted forward 12 hours, kept iff its time of
day lies in the closed shifted band, and the surviving output timestamps are
shifted back 12 hours. -/
def timeRangeFilter (startT endT : Nat) (times : List Int) :
    Except String (List Int) :=
  let s := (startT + 720) % 1440
  let e := (endT + 720) % 1440
  if e < s then
    .error "Start time must be before end time"
  else
    .ok ((((times.map (· + 43200000)).filter
      (fun t => decide ((s : Int) * 60000 ≤ t % 86400000) &&
        decide (t % 86400000 ≤ (e : Int) * 60000))).map (· - 43200000)))

/-! ## worker unit loops (cancellation) -/

/-- The participant loop of `BatchWorker.run`: before each participant the
worker reads `self.should_stop` and breaks when it is set.  `flag i` is the
value of the flag observed at the check preceding unit `i`; the result is the
list of units actually started. -/
def batchParticipantLoop {α : Type} : List α → (Nat → Bool) → Nat → List α
  | [], _, _ => []
  | u :: rest, flag, i =>
    if flag i then [] else u :: batchParticipantLoop rest flag (i + 1)

/-- The folder loop of `DirectoryProcessingWorker._process_directory`: the
loop body never reads `self.should_stop` (the flag is only initialised in
`run` and set in `stop`), so every folder is started regardless of the flag
values. -/
def directoryFolderLoop {α : Type} : List α → (Nat → Bool) → List α
  | [], _ => []
  | u :: rest, flag => u :: directoryFolderLoop rest (fun i => flag (i + 1))

/-! ## hrv_metrics.py -/

/-- One row of the table handed to `calculate_hrv_metrics`: columns `Time`
(ms since epoch), `PPI` (ms) and `Quality`. -/
structure PpiRow where
  time : Int
  ppi : ℚ
  quality : ℚ
deriving DecidableEq, Repr, Inhabited

/-- An emitted bin: the `current_start_time` of the bin together with its
records in chronological order. -/
abbrev Bin := Int × List PpiRow

/-- The timestamp of the last record of a bin (`current_bin[-1]["Time"]`). -/
def lastTime (b : Bin) : Int :=
  match b.2.getLast? with
  | some r => r.time
  | none => 0

/-- Closing rule of `calculate_hrv_metrics`: a bin is appended to
`hrv_results` only when it holds strictly more than one record.  The scan
keeps the current bin in reverse order (`rb`, most recent record first), so
the emitted bin is `rb.reverse`. -/
def closeBin (start : Int) (rb : List PpiRow) (acc : List Bin) : List Bin :=
  if 1 < rb.length then acc ++ [(start, rb.reverse)] else acc

/-- The row loop of `calculate_hrv_metrics` after its first iteration.
State: `acc` = bins emitted so far, `rb` = current bin in reverse order
(non-empty), `start` = `current_start_time`.  For each row: if the row lies
within the `w`-minute budget of the bin, a gap of more than one minute to the
previous record of the bin closes the bin early and restarts at the row,
otherwise the row is appended; a row beyond the budget closes the bin and
restarts at the row.  The trailing `closeBin` is the final close after the
scan. -/
def hrvScan (w : Int) (acc : List Bin) (rb : List PpiRow) (start : Int) :
    List PpiRow → List Bin
  | [] => closeBin start rb acc
  | row :: rest =>
    if row.time - start ≤ w * 60000 then
      if 60000 < row.time - rb.headI.time then
        hrvScan w (closeBin start rb acc) [row] row.time rest
      else
        hrvScan w acc (row :: rb) start rest
    else
      hrvScan w (closeBin start rb acc) [row] row.time rest

/-- The bins emitted by `calculate_hrv_metrics` on `rows` with a `w`-minute
window.  The first row initialises `current_start_time` and becomes the sole
record of the first bin (in the Python loop this is the first iteration:
`row.Time - current_start_time = 0`, and the gap test is skipped on the empty
bin; for a negative budget the `else` branch closes the still-empty bin
without emitting — either way the state after the first row is
`([row], row.time)`). -/
def hrvBins (w : Int) : List PpiRow → List Bin
  | [] => []
  | row :: rest => hrvScan w [] [row] row.time rest

/-- Successive differences, `np.diff`. -/
def diffsQ (l : List ℚ) : List ℚ := List.zipWith (· - ·) l.tail l

/-- `np.median`: middle element of the sorted data for odd length, average of
the two middle elements for even length. -/
def medianQ (l : List ℚ) : ℚ :=
  let s := List.insertionSort (· ≤ ·) l
  if l.length % 2 = 1 then s.getD (l.length / 2) 0
  else (s.getD (l.length / 2 - 1) 0 + s.getD (l.length / 2) 0) / 2

/-- The metric record produced by `calculate_metrics`.  `none` models
`np.nan`.  The square roots of `np.std`/`np.sqrt` are real numbers; all
radicands are exact rationals. -/
structure HRVMetrics where
  meanNN : Option ℚ
  sdnn : Option ℝ
  rmssd : Option ℝ
  sdsd : Option ℝ
  cvnn : Option ℝ
  cvsd : Option ℝ
  medianNN : Option ℚ
  numDataPoints : Nat
  meanQuality : Option ℚ

/-- `calculate_metrics` (hrv_metrics.py, lines 43-74).  Fewer than two data
points yield the NaN-filled fallback shape with the count preserved.
Otherwise: MeanNN and Mean_Quality are arithmetic means, SDNN and SDSD are
sample standard deviations (`ddof=1`), RMSSD is the root mean square of the
successive differences, CVNN and CVSD divide by MeanNN unless it is zero.
For a two-point bin `np.std(diff, ddof=1)` is NaN (a 0/0), modelled by the
`1 < d.length` guard on `sdsd`. -/
noncomputable def calculateMetrics (ppi quality : List ℚ) : HRVMetrics :=
  if ppi.length < 2 then
    { meanNN := none, sdnn := none, rmssd := none, sdsd := none,
      cvnn := none, cvsd := none, medianNN := none,
      numDataPoints := ppi.length, meanQuality := none }
  else
    let n : ℚ := ppi.length
    let meanNN : ℚ := ppi.sum / n
    let sdnn : ℝ := Real.sqrt (((ppi.map (fun x => (x - meanNN) ^ 2)).sum / (n - 1) : ℚ))
    let d := diffsQ ppi
    let rmssd : ℝ := Real.sqrt (((d.map (fun x => x ^ 2)).sum / (d.length : ℚ) : ℚ))
    let sdsd : Option ℝ :=
      if 1 < d.length then
        some (Real.sqrt (((d.map (fun x => (x - d.sum / (d.length : ℚ)) ^ 2)).sum /
          ((d.length : ℚ) - 1) : ℚ)))
      else none
    { meanNN := some meanNN
      sdnn := some sdnn
      rmssd := some rmssd
      sdsd := sdsd
      cvnn := if meanNN = 0 then none else some (sdnn / (meanNN : ℝ))
      cvsd := if meanNN = 0 then none else some (rmssd / (meanNN : ℝ))
      medianNN := some (medianQ ppi)
      numDataPoints := ppi.length
      meanQuality := some (quality.sum / (quality.length : ℚ)) }

/-- An emitted window: the metrics of `calculate_metrics` plus the
`Start_Time`/`End_Time` keys added before the append to `hrv_results`. -/
structure HRVWindowMetrics extends HRVMetrics where
  startTime : Int
  endTime : Int

/-- Builds the `HRVWindowMetrics` entry of one emitted bin:
`metrics["Start_Time"] = current_start_time`,
`metrics["End_Time"] = current_bin[-1]["Time"]`. -/
noncomputable def binMetrics (b : Bin) : HRVWindowMetrics :=
  { toHRVMetrics := calculateMetrics (b.2.map PpiRow.ppi) (b.2.map PpiRow.quality)
    startTime := b.1
    endTime := lastTime b }

/-- `calculate_hrv_metrics` (hrv_metrics.py, lines 78-145): the greedy scan
over the rows followed by the per-bin metric computation. -/
noncomputable def calculateHrvMetrics (w : Int) (rows : List PpiRow) :
    List HRVWindowMetrics :=
  (hrvBins w rows).map binMetrics

/-! ## file_worker PPI computation and cleaning -/

/-- `Time.diff()` of the sorted beat table: each row paired with its PPI,
`none` for the first row (pandas NaN). -/
def computePpi : List Int → List (Int × Option Int)
  | [] => []
  | t :: ts => (t, none) :: List.zipWith (fun cur prev => (cur, some (cur - prev))) ts (t :: ts)

/-- Lines 146-164 of `PPGProcessingWorker.run` (identically lines 192-212 of
the directory worker): sort the beat timestamps, compute `PPI` as successive
differences in ms, drop the NaN first row (`dropna`), keep the rows whose PPI
lies in the closed `[low, high]` band, and report the number of rows removed
by the band filter (`initial_len - len(cleaned)`). -/
def ppiPipeline (low high : Int) (times : List Int) : List (Int × Int) × Nat :=
  let sorted := List.insertionSort (· ≤ ·) times
  let withPpi := computePpi sorted
  let dropped := withPpi.filterMap (fun p => p.2.map (fun d => (p.1, d)))
  let cleaned := dropped.filter (fun p => decide (low ≤ p.2) && decide (p.2 ≤ high))
  (cleaned, dropped.length - cleaned.length)

/-! ## Helper lemmas -/

theorem getD_tail {α : Type} (l : List α) (i : Nat) (d : α) :
    l.tail.getD i d = l.getD (i + 1) d := by
  cases l <;> rfl

theorem scanl_add_getD (l : List Int) : ∀ (a : Int) (i : Nat), i ≤ l.length →
    (List.scanl (· + ·) a l).getD i 0 = a + (l.take i).sum := by
  induction l with
  | nil =>
    intro a i hi
    have h0 : i = 0 := Nat.le_zero.mp hi
    subst h0
    simp [List.scanl]
  | cons x xs ih =>
    intro a i hi
    cases i with
    | zero => simp [List.scanl]
    | succ j =>
      have hj : j ≤ xs.length := by simpa using hi
      have := ih (a + x) j hj
      simpa [List.scanl, add_assoc] using this

/-- Row `i` of the delta reconstruction: row 0 is pinned at `start_time`,
row `i > 0` is `start_time` plus the sum of the first `i + 1` deltas
(milliseconds). -/
theorem deltaTimes_getD (s : Int) (col0 : List Int) (i : Nat)
    (hi : i < col0.length) :
    (deltaTimes s col0).getD i none =
      some (if i = 0 then s * 1000 else s * 1000 + (col0.take (i + 1)).sum) := by
  unfold deltaTimes
  have hmap : ((List.range col0.length).map (fun i =>
      if i = 0 then some (s * 1000)
      else some (s * 1000 + ((col0.scanl (· + ·) 0).tail).getD i 0))).getD i none =
      (if i = 0 then some (s * 1000)
      else some (s * 1000 + ((col0.scanl (· + ·) 0).tail).getD i 0)) := by
    rw [List.getD_eq_getElem?_getD, List.getElem?_map, List.getElem?_range hi]
    rfl
  rw [hmap]
  rcases Nat.eq_zero_or_pos i with h0 | hpos
  · simp [h0]
  · have hne : i ≠ 0 := Nat.pos_iff_ne_zero.mp hpos
    rw [if_neg hne, if_neg hne, getD_tail, scanl_add_getD col0 0 (i + 1) hi, zero_add]

/-! ## Claim theorems: timestamp reconstruction (C2, C3, C4) -/

/-- C2, counterexample: a delta-encoded column `[0, 10000, 0]` with
`start_time = 1700000000` is reconstructed by the code as
`[S, S+10s, S+10s]` — the deltas are literal per-row increments — whereas the
claimed `linspace` over the total span would give `[S, S+5s, S+10s]`; the
middle timestamps differ. -/
theorem c2_counterexample :
    readPpgFile [0, 10000, 0] true (some 1700000000) 0 =
      .ok [some 1700000000000, some 1700000010000, some 1700000010000] ∧
    deltaLinspaceSpec 1700000000 10000 3 =
      [1700000000000, 1700000005000, 1700000010000] ∧
    (1700000010000 : Int) ≠ 1700000005000 := by
  refine ⟨rfl, ?_, by decide⟩
  norm_num [deltaLinspaceSpec, show List.range 3 = [0, 1, 2] from rfl]

/-- C2, amended: for a column that reaches the delta branch (batch condition
false, max ≤ 10000) with a sidecar `start_time`, the reconstructed timestamp
of row 0 is `start_time` and of row `i > 0` is `start_time` plus the
cumulative sum of the first `i + 1` deltas in milliseconds; the deltas are
literal per-row increments, and only for uniform deltas (e.g. `[0, 1000 × 10]`
summing to 10000 ms over 11 rows with `start_time = 1700000000`) does the
result coincide with timestamps linearly spaced from `1700000000.000` to
`1700000010.000`. -/
theorem c2_amended (s : Int) (col0 : List Int) (fg : Bool) (m : Int) (i : Nat)
    (hb : batchCondB col0 = false) (hm : maxLeB col0 = true)
    (hi : i < col0.length) :
    readPpgFile col0 fg (some s) m = .ok (deltaTimes s col0) ∧
    (deltaTimes s col0).getD i none =
      some (if i = 0 then s * 1000 else s * 1000 + (col0.take (i + 1)).sum) ∧
    deltaTimes 1700000000
        [0, 1000, 1000, 1000, 1000, 1000, 1000, 1000, 1000, 1000, 1000] =
      [some 1700000000000, some 1700000001000, some 1700000002000,
       some 1700000003000, some 1700000004000, some 1700000005000,
       some 1700000006000, some 1700000007000, some 1700000008000,
       some 1700000009000, some 1700000010000] := by
  refine ⟨?_, deltaTimes_getD s col0 i hi, by decide⟩
  unfold readPpgFile
  simp [hb, hm]

theorem c2_witness :
    batchCondB [0, 10000, 0] = false ∧ maxLeB [0, 10000, 0] = true ∧
    (1 : Nat) < 3 ∧
    readPpgFile [0, 10000, 0] true (some 1700000000) 0 =
      .ok (deltaTimes 1700000000 [0, 10000, 0]) :=
  ⟨by decide, by decide, by decide,
    (c2_amended 1700000000 [0, 10000, 0] true 0 1 (by decide) (by decide)
      (by decide)).1⟩

/-- C3, counterexample: the batch-format column `[2e9, 0, 0, 0, 3e9]` is
reconstructed per batch (anchor plus 20 ms per row), not as one `linspace`
between the first and last anchor: row 1 gets `2e9 s + 20 ms`, while the
claimed interpolation would place it at `2.25e9` seconds. -/
theorem c3_counterexample :
    readPpgFile [2000000000, 0, 0, 0, 3000000000] true none 0 =
      .ok [some 2000000000000, some 2000000000020, some 2000000000040,
           some 2000000000060, some 3000000000000] ∧
    (batchLinspaceSpec 2000000000 3000000000 5).getD 1 0 = 2250000000000 ∧
    ((2000000000020 : ℚ) ≠ 2250000000000) := by
  refine ⟨rfl, ?_, by norm_num⟩
  norm_num [batchLinspaceSpec, show List.range 5 = [0, 1, 2, 3, 4] from rfl,
    List.getD_cons_succ, List.getD_cons_zero]

/-- C3, amended: a batch-format column is reconstructed per batch — every row
receives the anchor timestamp of its own batch plus 20 ms per row inside the
batch (assumed 50 Hz), regardless of the later anchors, and rows before the
first anchor receive no timestamp at all (NaT) — as exhibited on
`[2e9, 0, 0, 0, 3e9]` and `[0, 2e9, 0]`. -/
theorem c3_amended :
    (∀ (col0 : List Int) (fg : Bool) (st : Option Int) (m : Int),
      batchCondB col0 = true → readPpgFile col0 fg st m = .ok (batchTimes col0)) ∧
    readPpgFile [2000000000, 0, 0, 0, 3000000000] true none 0 =
      .ok [some 2000000000000, some 2000000000020, some 2000000000040,
           some 2000000000060, some 3000000000000] ∧
    readPpgFile [0, 2000000000, 0] true none 0 =
      .ok [none, some 2000000000000, some 2000000000020] := by
  refine ⟨?_, rfl, rfl⟩
  intro col0 fg st m hb
  unfold readPpgFile
  simp [hb]

theorem c3_witness :
    batchCondB [0, 2000000000, 0] = true ∧
    readPpgFile [0, 2000000000, 0] true none 0 =
      .ok (batchTimes [0, 2000000000, 0]) :=
  ⟨by decide, c3_amended.1 [0, 2000000000, 0] true none 0 (by decide)⟩

/-- Evaluation of the incrementing-sequence heuristic at the C4
counterexample column: the mean difference is negative, so the tolerance band
is empty and no difference qualifies. -/
theorem isIncSeq_eval : isIncrementingSeq [20000, 5, 5] = false := by
  unfold isIncrementingSeq
  simp only [List.length_cons, List.length_nil, List.tail_cons, List.zipWith]
  norm_num
  have hf : ∀ d : ℚ, (decide (|d + 19995 / 2| < -(3999 / 4))) = false := by
    intro d
    apply decide_eq_false
    intro h
    exact absurd (lt_of_le_of_lt (abs_nonneg _) h) (by norm_num)
  simp only [hf, List.filter_false]
  norm_num

/-- C4, counterexample: the column `[20000, 5, 5]` matches neither the batch
shape (no zero entry) nor the delta shape (max 20000 > 10000) nor the
incrementing heuristic, yet reconstruction does not fail: the code fabricates
timestamps from the file's modification time (mtime minus 3/50 s, then 20 ms
steps). -/
theorem c4_counterexample :
    readPpgFile [20000, 5, 5] false none 100000 =
      .ok [some 99940, some 99960, some 99980] := by
  have h1 : batchCondB [20000, 5, 5] = false := by decide
  have h2 : maxLeB [20000, 5, 5] = false := by decide
  unfold readPpgFile
  rw [h1, h2, isIncSeq_eval]
  rfl

/-- C4, amended: for every first column matching neither the batch shape nor
the delta shape, reconstruction never raises: it returns fabricated
timestamps — from the sidecar `start_time` at 20 ms steps when the column
looks like an incrementing sequence and a folder with the sidecar value is
available, and otherwise from the file modification time at 20 ms steps.
The only reconstruction failure is a delta-shaped column without
`start_time`. -/
theorem c4_amended (col0 : List Int) (fg : Bool) (st : Option Int) (m : Int)
    (hb : batchCondB col0 = false) (hm : maxLeB col0 = false) :
    (readPpgFile col0 fg st m).isOk = true := by
  unfold readPpgFile
  simp only [hb, hm, Bool.false_eq_true, if_false]
  split <;> rfl

theorem c4_witness :
    batchCondB [20000, 5, 5] = false ∧ maxLeB [20000, 5, 5] = false ∧
    (readPpgFile [20000, 5, 5] false none 100000).isOk = true :=
  ⟨by decide, by decide,
    c4_amended [20000, 5, 5] false none 100000 (by decide) (by decide)⟩

/-! ## Claim theorems: time-range filter (C1) -/

/-- C1, counterexample: with the plain same-day window start = "05:00",
end = "22:00" (start < end) the worker does NOT filter as a plain same-day
window — the unconditional 12-hour shift turns the bounds into 17:00 > 10:00
and the configuration error is raised. -/
theorem c1_counterexample :
    timeRangeFilter 300 1320 [43200000] =
      .error "Start time must be before end time" := rfl

/-- C1, amended: the 12-hour midnight-adjustment path is applied
unconditionally whenever time-range filtering is enabled.  A window with
start > end such as 22:00-05:00 passes the shifted-bounds check and filters
correctly (a record at 23:30 or 02:00 is accepted, one at 12:00 rejected,
outputs shifted back to the original timestamps), while a window with
start < end such as 05:00-22:00 has shifted start 17:00 > shifted end 10:00
and raises the configuration error instead of filtering as a plain same-day
window. -/
theorem c1_amended :
    (∀ times : List Int, timeRangeFilter 300 1320 times =
      .error "Start time must be before end time") ∧
    timeRangeFilter 1320 300 [84600000, 7200000, 43200000] =
      .ok [84600000, 7200000] := by
  exact ⟨fun _ => rfl, rfl⟩

/-! ## Claim theorems: cooperative cancellation (C9) -/

/-- C9, code evaluation: `BatchWorker.run` honours the stop flag between
participants (with the flag already set, no participant is started), but the
folder loop of `DirectoryProcessingWorker._process_directory` never reads the
flag: every folder is started regardless — with the flag set before the run,
both folders of `[0, 1]` are still processed. -/
theorem c9_code_eval :
    (∀ units : List Nat, batchParticipantLoop units (fun _ => true) 0 = []) ∧
    (∀ (units : List Nat) (flag : Nat → Bool),
      directoryFolderLoop units flag = units) ∧
    directoryFolderLoop [0, 1] (fun _ => true) = [0, 1] := by
  refine ⟨fun units => ?_, fun units => ?_, by decide⟩
  · cases units <;> simp [batchParticipantLoop]
  · induction units with
    | nil => intro flag; rfl
    | cons u rest ih => intro flag; simp [directoryFolderLoop, ih]

/-! ## Invariants of the HRV scan -/

/-- Properties of an emitted bin (used by claims C5 and C6): it holds
strictly more than one record, its attached start time is the timestamp of
its first record, chronologically adjacent records are at most one minute
apart, and every record satisfies `Q` (instantiated with membership in the
scanned input). -/
def BinOk (Q : PpiRow → Prop) (b : Bin) : Prop :=
  1 < b.2.length ∧
  (∃ r, b.2.head? = some r ∧ b.1 = r.time) ∧
  List.Chain' (fun a c => c.time - a.time ≤ 60000) b.2 ∧
  ∀ r ∈ b.2, Q r

theorem closeBin_binOk {Q : PpiRow → Prop} {acc : List Bin} {rb : List PpiRow}
    {start : Int}
    (hacc : ∀ b ∈ acc, BinOk Q b)
    (hlast : ∃ r, rb.getLast? = some r ∧ start = r.time)
    (hchain : List.Chain' (fun a c => a.time - c.time ≤ 60000) rb)
    (hq : ∀ r ∈ rb, Q r) :
    ∀ b ∈ closeBin start rb acc, BinOk Q b := by
  intro b hb
  unfold closeBin at hb
  split at hb
  case isTrue h =>
    rcases List.mem_append.mp hb with h1 | h1
    · exact hacc b h1
    · obtain ⟨r, hr, hrt⟩ := hlast
      have hbeq : b = (start, rb.reverse) := List.mem_singleton.mp h1
      subst hbeq
      refine ⟨by simpa using h, ⟨r, ?_, hrt⟩, ?_, ?_⟩
      · rw [List.head?_reverse]
        exact hr
      · exact List.chain'_reverse.mpr hchain
      · intro x hx
        exact hq x (List.mem_reverse.mp hx)
  case isFalse => exact hacc b hb

theorem hrvScan_binOk (w : Int) (Q : PpiRow → Prop) :
    ∀ (rest : List PpiRow) (acc : List Bin) (rb : List PpiRow) (start : Int),
    (∀ b ∈ acc, BinOk Q b) →
    (∃ r, rb.getLast? = some r ∧ start = r.time) →
    List.Chain' (fun a c => a.time - c.time ≤ 60000) rb →
    (∀ r ∈ rb, Q r) →
    (∀ r ∈ rest, Q r) →
    ∀ b ∈ hrvScan w acc rb start rest, BinOk Q b := by
  intro rest
  induction rest with
  | nil =>
    intro acc rb start hacc hlast hchain hq _
    exact closeBin_binOk hacc hlast hchain hq
  | cons row rest ih =>
    intro acc rb start hacc hlast hchain hq hrest
    have hqrow : Q row := hrest row (List.mem_cons_self _ _)
    have hqrest : ∀ r ∈ rest, Q r := fun r hr => hrest r (List.mem_cons_of_mem _ hr)
    have hnew : ∀ b ∈ hrvScan w (closeBin start rb acc) [row] row.time rest,
        BinOk Q b := by
      apply ih (closeBin start rb acc) [row] row.time
        (closeBin_binOk hacc hlast hchain hq) ⟨row, rfl, rfl⟩
        (List.chain'_singleton row) ?_ hqrest
      intro r hr
      have : r = row := List.mem_singleton.mp hr
      subst this
      exact hqrow
    simp only [hrvScan]
    split
    · split
      · exact hnew
      case isFalse hgap =>
        rcases hlast with ⟨r, hr, hrt⟩
        cases rb with
        | nil => simp at hr
        | cons y ys =>
          apply ih acc (row :: y :: ys) start hacc
            ⟨r, by rwa [List.getLast?_cons_cons], hrt⟩ ?_ ?_ hqrest
          · refine List.chain'_cons.mpr ⟨?_, hchain⟩
            simpa using Int.not_lt.mp hgap
          · intro x hx
            rcases List.mem_cons.mp hx with h1 | h1
            · subst h1; exact hqrow
            · exact hq x h1
    · exact hnew

theorem hrvBins_binOk (w : Int) (rows : List PpiRow) :
    ∀ b ∈ hrvBins w rows, BinOk (· ∈ rows) b := by
  cases rows with
  | nil => intro b hb; simp [hrvBins] at hb
  | cons r rest =>
    refine hrvScan_binOk w _ rest [] [r] r.time (by simp) ⟨r, rfl, rfl⟩
      (List.chain'_singleton r) ?_ ?_
    · intro x hx
      have : x = r := List.mem_singleton.mp hx
      subst this
      exact List.mem_cons_self _ _
    · intro x hx
      exact List.mem_cons_of_mem _ hx

/-- Separation of consecutive bins (claim C10): the last record of each bin
is strictly earlier than the start of the next. -/
def SepChain (l : List Bin) : Prop :=
  List.Chain' (fun b c => lastTime b < c.1) l

/-- The records of a bin are in chronological order. -/
def SortedBin (b : Bin) : Prop :=
  List.Chain' (fun a c => a.time ≤ c.time) b.2

theorem chain'_head_getLast {α : Type} {R : α → α → Prop}
    (htrans : Transitive R) (hrefl : Reflexive R) :
    ∀ {l : List α} {a b : α},
      List.Chain' R l → l.head? = some a → l.getLast? = some b → R a b := by
  intro l
  induction l with
  | nil => intro a b _ hh _; simp at hh
  | cons x xs ih =>
    intro a b hchain hh hl
    rw [List.head?_cons, Option.some.injEq] at hh
    subst hh
    cases xs with
    | nil =>
      have hax : ([x] : List α).getLast? = some x := rfl
      rw [hax, Option.some.injEq] at hl
      subst hl
      exact hrefl x
    | cons y ys =>
      rw [List.getLast?_cons_cons] at hl
      have h2 := List.chain'_cons.mp hchain
      exact htrans h2.1 (ih h2.2 rfl hl)

theorem hrvScan_sorted (w : Int) :
    ∀ (rest : List PpiRow) (acc : List Bin) (rb : List PpiRow) (start : Int),
    SepChain acc →
    (∀ b, acc.getLast? = some b → lastTime b < start) →
    (∀ b ∈ acc, SortedBin b) →
    (∃ r, rb.getLast? = some r ∧ start = r.time) →
    List.Chain' (fun a c => c.time ≤ a.time) rb →
    (1 < rb.length → rb.headI.time - start ≤ w * 60000) →
    (∀ r ∈ rest, rb.headI.time ≤ r.time) →
    List.Pairwise (fun a c => a.time ≤ c.time) rest →
    SepChain (hrvScan w acc rb start rest) ∧
    ∀ b ∈ hrvScan w acc rb start rest, SortedBin b := by
  intro rest
  induction rest with
  | nil =>
    intro acc rb start hsep hbound hsorted hlast hchain _ _ _
    unfold hrvScan closeBin
    split
    case isTrue h =>
      constructor
      · refine List.Chain'.append hsep (List.chain'_singleton _) ?_
        intro x hx y hy
        simp only [List.head?_cons, Option.mem_def, Option.some.injEq] at hy
        subst hy
        exact hbound x hx
      · intro b hb
        rcases List.mem_append.mp hb with h1 | h1
        · exact hsorted b h1
        · have hbeq : b = (start, rb.reverse) := List.mem_singleton.mp h1
          subst hbeq
          exact List.chain'_reverse.mpr hchain
    case isFalse => exact ⟨hsep, hsorted⟩
  | cons row rest ih =>
    intro acc rb start hsep hbound hsorted hlast hchain hbudget hup hpair
    obtain ⟨r, hr, hrt⟩ := hlast
    have hrbne : rb ≠ [] := by
      intro h; subst h; simp at hr
    have hstart_le_head : start ≤ rb.headI.time := by
      rw [hrt]
      cases rb with
      | nil => simp at hr
      | cons y ys =>
        have htr : Transitive (fun a c : PpiRow => c.time ≤ a.time) := by
          intro a b c h1 h2
          exact le_trans h2 h1
        have hy : r.time ≤ y.time :=
          chain'_head_getLast (R := fun a c : PpiRow => c.time ≤ a.time) htr
            (fun a => le_refl a.time) hchain rfl hr
        simpa using hy
    have hhead_le_row : rb.headI.time ≤ row.time :=
      hup row (List.mem_cons_self _ _)
    have hup' : ∀ x ∈ rest, row.time ≤ x.time := by
      intro x hx
      exact (List.pairwise_cons.mp hpair).1 x hx
    have hpair' := (List.pairwise_cons.mp hpair).2
    -- Facts used by both closing branches.
    have hsep' : SepChain (closeBin start rb acc) := by
      unfold closeBin
      split
      case isTrue h =>
        refine List.Chain'.append hsep (List.chain'_singleton _) ?_
        intro x hx y hy
        simp only [List.head?_cons, Option.mem_def, Option.some.injEq] at hy
        subst hy
        exact hbound x hx
      case isFalse => exact hsep
    have hsorted' : ∀ b ∈ closeBin start rb acc, SortedBin b := by
      intro b hb
      unfold closeBin at hb
      split at hb
      case isTrue h =>
        rcases List.mem_append.mp hb with h1 | h1
        · exact hsorted b h1
        · have hbeq : b = (start, rb.reverse) := List.mem_singleton.mp h1
          subst hbeq
          exact List.chain'_reverse.mpr hchain
      case isFalse => exact hsorted b hb
    -- Bound for the state after a close, parameterised by why the head of
    -- the closed bin is earlier than `row`.
    have hbound' : rb.headI.time < row.time ∨ rb.length ≤ 1 →
        ∀ b, (closeBin start rb acc).getLast? = some b → lastTime b < row.time := by
      intro hcase b hb
      unfold closeBin at hb
      split at hb
      case isTrue h =>
        rw [List.getLast?_concat, Option.some.injEq] at hb
        subst hb
        have hlt : rb.headI.time < row.time := by
          rcases hcase with h1 | h1
          · exact h1
          · omega
        unfold lastTime
        simp only [List.getLast?_reverse]
        cases rb with
        | nil => simp at hr
        | cons y ys => simpa using hlt
      case isFalse h =>
        calc lastTime b < start := hbound b hb
          _ ≤ rb.headI.time := hstart_le_head
          _ ≤ row.time := hhead_le_row
    simp only [hrvScan]
    split
    case isTrue hbud =>
      split
      case isTrue hgap =>
        refine ih (closeBin start rb acc) [row] row.time hsep'
          (hbound' (Or.inl (by omega))) hsorted' ⟨row, rfl, rfl⟩
          (List.chain'_singleton row) (by intro h; simp at h) hup' hpair'
      case isFalse hgap =>
        cases rb with
        | nil => exact absurd rfl hrbne
        | cons y ys =>
          refine ih acc (row :: y :: ys) start hsep hbound hsorted
            ⟨r, by rwa [List.getLast?_cons_cons], hrt⟩ ?_ ?_ hup' hpair'
          · exact List.chain'_cons.mpr ⟨hhead_le_row, hchain⟩
          · intro _
            simpa using hbud
    case isFalse hbud =>
      have hlt : rb.headI.time < row.time ∨ rb.length ≤ 1 := by
        by_cases hlen : 1 < rb.length
        · left
          have := hbudget hlen
          omega
        · right; omega
      refine ih (closeBin start rb acc) [row] row.time hsep'
        (hbound' hlt) hsorted' ⟨row, rfl, rfl⟩
        (List.chain'_singleton row) (by intro h; simp at h) hup' hpair'

theorem hrvBins_sorted (w : Int) (rows : List PpiRow)
    (hs : List.Pairwise (fun a c => a.time ≤ c.time) rows) :
    SepChain (hrvBins w rows) ∧ ∀ b ∈ hrvBins w rows, SortedBin b := by
  cases rows with
  | nil => exact ⟨List.chain'_nil, by intro b hb; simp [hrvBins] at hb⟩
  | cons r rest =>
    refine hrvScan_sorted w rest [] [r] r.time List.chain'_nil
      (by intro b hb; simp at hb) (by intro b hb; simp at hb)
      ⟨r, rfl, rfl⟩ (List.chain'_singleton r) (by intro h; simp at h)
      ?_ (List.pairwise_cons.mp hs).2
    intro x hx
    exact (List.pairwise_cons.mp hs).1 x hx

/-! ## Claim theorems: HRV windowing (C5, C6, C10) -/

theorem calculateMetrics_numDataPoints (ppi quality : List ℚ) :
    (calculateMetrics ppi quality).numDataPoints = ppi.length := by
  unfold calculateMetrics
  split <;> rfl

theorem binMetrics_startTime (b : Bin) : (binMetrics b).startTime = b.1 := rfl

theorem binMetrics_endTime (b : Bin) : (binMetrics b).endTime = lastTime b := rfl

theorem binMetrics_numDataPoints (b : Bin) :
    (binMetrics b).numDataPoints = b.2.length := by
  show (calculateMetrics (b.2.map PpiRow.ppi) (b.2.map PpiRow.quality)).numDataPoints
    = b.2.length
  rw [calculateMetrics_numDataPoints, List.length_map]

/-- C5: the gap rule of the HRV scan.  No emitted window contains two
chronologically adjacent records more than one minute apart (a record whose
gap to the previous record of the bin exceeds one minute always starts a new
bin), and the synthetic sequence at 0 s, 30 s, 200 s, 230 s with a 5-minute
budget splits into exactly two windows at the 170 s gap even though the
5-minute budget was not exhausted. -/
theorem c5_gap_rule (w : Int) (rows : List PpiRow) :
    (∀ b ∈ hrvBins w rows,
      List.Chain' (fun a c => c.time - a.time ≤ 60000) b.2) ∧
    hrvBins 5 [⟨0, 800, 1⟩, ⟨30000, 800, 1⟩, ⟨200000, 800, 1⟩, ⟨230000, 800, 1⟩] =
      [(0, [⟨0, 800, 1⟩, ⟨30000, 800, 1⟩]),
       (200000, [⟨200000, 800, 1⟩, ⟨230000, 800, 1⟩])] := by
  exact ⟨fun b hb => (hrvBins_binOk w rows b hb).2.2.1, rfl⟩

theorem c5_witness :
    List.Chain' (fun a c => c.time - a.time ≤ 60000)
      ([⟨0, 800, 1⟩, ⟨30000, 800, 1⟩] : List PpiRow) := by
  have h := (c5_gap_rule 5
      [⟨0, 800, 1⟩, ⟨30000, 800, 1⟩, ⟨200000, 800, 1⟩, ⟨230000, 800, 1⟩]).1
    (0, [⟨0, 800, 1⟩, ⟨30000, 800, 1⟩])
    (by
      rw [show hrvBins 5
          [⟨0, 800, 1⟩, ⟨30000, 800, 1⟩, ⟨200000, 800, 1⟩, ⟨230000, 800, 1⟩] =
          [(0, [⟨0, 800, 1⟩, ⟨30000, 800, 1⟩]),
           (200000, [⟨200000, 800, 1⟩, ⟨230000, 800, 1⟩])] from rfl]
      exact List.mem_cons_self _ _)
  exact h

/-- C6: every window emitted by `calculate_hrv_metrics` has strictly more
than one data point, its `Start_Time`/`End_Time` are the timestamps of the
first and last record of its bin, and both lie among the input timestamps,
so the union of all window spans stays inside the time span of the input. -/
theorem c6_window_invariants (w : Int) (rows : List PpiRow) :
    ∀ m ∈ calculateHrvMetrics w rows,
      1 < m.numDataPoints ∧
      (∃ b ∈ hrvBins w rows, m = binMetrics b ∧ ∃ hne : b.2 ≠ [],
        m.startTime = (b.2.head hne).time ∧
        m.endTime = (b.2.getLast hne).time ∧
        m.numDataPoints = b.2.length) ∧
      m.startTime ∈ rows.map PpiRow.time ∧
      m.endTime ∈ rows.map PpiRow.time ∧
      ∀ lo hi : Int, (∀ r ∈ rows, lo ≤ r.time ∧ r.time ≤ hi) →
        lo ≤ m.startTime ∧ m.endTime ≤ hi := by
  intro m hm
  rcases List.mem_map.mp hm with ⟨b, hb, rfl⟩
  obtain ⟨hlen, ⟨rh, hrh, hrht⟩, _, hmem⟩ := hrvBins_binOk w rows b hb
  have hne : b.2 ≠ [] := List.ne_nil_of_length_pos (by omega)
  have hhead : b.2.head hne = rh := by
    have h := List.head?_eq_head hne
    rw [hrh] at h
    exact (Option.some.injEq _ _).mp h.symm
  have hstart : (binMetrics b).startTime = (b.2.head hne).time := by
    rw [binMetrics_startTime, hrht, hhead]
  have hend : (binMetrics b).endTime = (b.2.getLast hne).time := by
    rw [binMetrics_endTime]
    unfold lastTime
    rw [List.getLast?_eq_getLast _ hne]
  have hmem_start : (binMetrics b).startTime ∈ rows.map PpiRow.time := by
    rw [hstart]
    exact List.mem_map_of_mem _ (hmem _ (List.head_mem hne))
  have hmem_end : (binMetrics b).endTime ∈ rows.map PpiRow.time := by
    rw [hend]
    exact List.mem_map_of_mem _ (hmem _ (List.getLast_mem hne))
  refine ⟨?_, ⟨b, hb, rfl, hne, hstart, hend, binMetrics_numDataPoints b⟩,
    hmem_start, hmem_end, ?_⟩
  · rw [binMetrics_numDataPoints]
    exact hlen
  · intro lo hi hlohi
    constructor
    · rw [hstart]
      exact (hlohi _ (hmem _ (List.head_mem hne))).1
    · rw [hend]
      exact (hlohi _ (hmem _ (List.getLast_mem hne))).2

theorem c6_witness :
    1 < (binMetrics (0, [⟨0, 800, 1⟩, ⟨30000, 820, 1⟩])).numDataPoints ∧
    (binMetrics (0, [⟨0, 800, 1⟩, ⟨30000, 820, 1⟩])).startTime ∈
      ([⟨0, 800, 1⟩, ⟨30000, 820, 1⟩] : List PpiRow).map PpiRow.time := by
  have h := c6_window_invariants 5 [⟨0, 800, 1⟩, ⟨30000, 820, 1⟩]
    (binMetrics (0, [⟨0, 800, 1⟩, ⟨30000, 820, 1⟩]))
    (by
      rw [show calculateHrvMetrics 5 [⟨0, 800, 1⟩, ⟨30000, 820, 1⟩] =
          [binMetrics (0, [⟨0, 800, 1⟩, ⟨30000, 820, 1⟩])] from rfl]
      exact List.mem_cons_self _ _)
  exact ⟨h.1, h.2.2.1⟩

/-- C10 (implicit invariant): on an input sorted by `Time`, the emitted
windows are chronological — each window satisfies
`Start_Time ≤ End_Time`, and each window's `End_Time` is strictly earlier
than the next window's `Start_Time`, so consecutive closed window intervals
are pairwise disjoint. -/
theorem c10_window_order (w : Int) (rows : List PpiRow)
    (hs : List.Pairwise (fun a c => a.time ≤ c.time) rows) :
    (∀ m ∈ calculateHrvMetrics w rows, m.startTime ≤ m.endTime) ∧
    List.Chain' (fun u v => u.endTime < v.startTime)
      (calculateHrvMetrics w rows) := by
  obtain ⟨hsep, hsortedb⟩ := hrvBins_sorted w rows hs
  constructor
  · intro m hm
    rcases List.mem_map.mp hm with ⟨b, hb, rfl⟩
    obtain ⟨hlen, ⟨rh, hrh, hrht⟩, _, _⟩ := hrvBins_binOk w rows b hb
    have hne : b.2 ≠ [] := List.ne_nil_of_length_pos (by omega)
    have hsb := hsortedb b hb
    have htr : Transitive (fun a c : PpiRow => a.time ≤ c.time) := by
      intro a b c h1 h2
      exact le_trans h1 h2
    have hle : rh.time ≤ (b.2.getLast hne).time :=
      chain'_head_getLast (R := fun a c : PpiRow => a.time ≤ c.time) htr
        (fun a => le_refl a.time) hsb hrh (List.getLast?_eq_getLast _ hne)
    rw [binMetrics_startTime, binMetrics_endTime, hrht]
    unfold lastTime
    rw [List.getLast?_eq_getLast _ hne]
    exact hle
  · unfold calculateHrvMetrics
    rw [List.chain'_map]
    exact hsep

theorem c10_witness :
    List.Pairwise (fun a c => a.time ≤ c.time)
      ([⟨0, 800, 1⟩, ⟨30000, 800, 1⟩, ⟨200000, 800, 1⟩, ⟨230000, 800, 1⟩] :
        List PpiRow) ∧
    List.Chain' (fun u v => u.endTime < v.startTime)
      (calculateHrvMetrics 5
        [⟨0, 800, 1⟩, ⟨30000, 800, 1⟩, ⟨200000, 800, 1⟩, ⟨230000, 800, 1⟩]) := by
  refine ⟨by decide, (c10_window_order 5 _ (by decide)).2⟩

/-! ## Claim theorems: PPI cleaning (C7) -/

theorem map_fst_zipWith_pair :
    ∀ (l1 l2 : List Int), l1.length ≤ l2.length →
      (List.zipWith (fun cur prev => (cur, some (cur - prev))) l1 l2).map
        Prod.fst = l1 := by
  intro l1
  induction l1 with
  | nil => intro l2 _; rfl
  | cons x xs ih =>
    intro l2 hl
    cases l2 with
    | nil => simp at hl
    | cons y ys =>
      simp only [List.zipWith_cons_cons, List.map_cons]
      rw [ih ys (by simpa using hl)]

theorem computePpi_map_fst (times : List Int) :
    (computePpi times).map Prod.fst = times := by
  cases times with
  | nil => rfl
  | cons t ts =>
    simp only [computePpi, List.map_cons]
    rw [map_fst_zipWith_pair ts (t :: ts) (by simp)]

theorem map_fst_dropna_sublist (l : List (Int × Option Int)) :
    ((l.filterMap (fun p => p.2.map (fun d => (p.1, d)))).map Prod.fst).Sublist
      (l.map Prod.fst) := by
  induction l with
  | nil => simp
  | cons p ps ih =>
    cases hp : p.2 with
    | none =>
      simp only [List.filterMap_cons, hp, Option.map_none', List.map_cons]
      exact ih.cons _
    | some d =>
      simp only [List.filterMap_cons, hp, Option.map_some', List.map_cons]
      exact ih.cons₂ _

/-- C7: the output of the PPI computation and cleaning contains only records
whose PPI is defined and inside the closed `[low, high]` band, the output is
sorted by timestamp, and the first record of the (sorted) sequence is always
dropped: the output is at least one row shorter than the input. -/
theorem c7_ppi_clean (low high : Int) (times : List Int) :
    (∀ p ∈ (ppiPipeline low high times).1, low ≤ p.2 ∧ p.2 ≤ high) ∧
    List.Pairwise (fun a c : Int => a ≤ c)
      ((ppiPipeline low high times).1.map Prod.fst) ∧
    (times ≠ [] → (ppiPipeline low high times).1.length + 1 ≤ times.length) := by
  refine ⟨?_, ?_, ?_⟩
  · intro p hp
    unfold ppiPipeline at hp
    have := List.of_mem_filter hp
    simpa using this
  · have hsorted : List.Pairwise (fun a c : Int => a ≤ c)
        (List.insertionSort (· ≤ ·) times) :=
      List.sorted_insertionSort (· ≤ ·) times
    have h1 : ((ppiPipeline low high times).1.map Prod.fst).Sublist
        (((computePpi (List.insertionSort (· ≤ ·) times)).filterMap
          (fun p => p.2.map (fun d => (p.1, d)))).map Prod.fst) := by
      unfold ppiPipeline
      exact (List.filter_sublist _).map _
    have h2 := h1.trans (map_fst_dropna_sublist _)
    rw [computePpi_map_fst] at h2
    exact List.Pairwise.sublist h2 hsorted
  · intro hne
    have hlens : (List.insertionSort (· ≤ ·) times).length = times.length :=
      List.length_insertionSort _ _
    have hsne : List.insertionSort (· ≤ ·) times ≠ [] := by
      intro h
      rw [h] at hlens
      exact hne (List.eq_nil_of_length_eq_zero hlens.symm)
    obtain ⟨t, ts, hts⟩ := List.exists_cons_of_ne_nil hsne
    have hdrop : (((computePpi (List.insertionSort (· ≤ ·) times)).filterMap
        (fun p => p.2.map (fun d => (p.1, d))))).length ≤ times.length - 1 := by
      rw [hts]
      simp only [computePpi, List.filterMap_cons, Option.map_none']
      calc ((List.zipWith (fun cur prev => (cur, some (cur - prev))) ts
              (t :: ts)).filterMap (fun p => p.2.map (fun d => (p.1, d)))).length
          ≤ (List.zipWith (fun cur prev => (cur, some (cur - prev))) ts
              (t :: ts)).length := List.length_filterMap_le _ _
        _ = ts.length := by simp
        _ = times.length - 1 := by
            have : (t :: ts).length = times.length := by rw [← hts, hlens]
            simp at this
            omega
    have hclean : (ppiPipeline low high times).1.length ≤
        (((computePpi (List.insertionSort (· ≤ ·) times)).filterMap
          (fun p => p.2.map (fun d => (p.1, d))))).length := by
      unfold ppiPipeline
      exact List.length_filter_le _ _
    have hpos : 0 < times.length := List.length_pos.mpr hne
    omega

theorem c7_witness :
    ([0, 800, 1600, 5000, 5600] : List Int) ≠ [] ∧
    (ppiPipeline 667 2000 [0, 800, 1600, 5000, 5600]).1.length + 1 ≤ 5 :=
  ⟨by decide, (c7_ppi_clean 667 2000 [0, 800, 1600, 5000, 5600]).2.2 (by decide)⟩

/-! ## Claim theorems: metric formulas (C8) -/

theorem sqrt_400 : Real.sqrt 400 = 20 := by
  rw [show (400 : ℝ) = 20 ^ 2 by norm_num, Real.sqrt_sq (by norm_num : (0:ℝ) ≤ 20)]

/-- C8: the per-bin metric formulas (ddof = 1 sample standard deviations).
On the PPI sequence [800, 820, 780] ms with quality [1, 1, 1]:
MeanNN = 800, SDNN = √((0²+20²+20²)/2) = √400 = 20, RMSSD = √((20²+40²)/2) =
√1000 ≈ 31.62, SDSD = √1800, CVNN = SDNN/MeanNN = 0.025,
CVSD = RMSSD/MeanNN, MedianNN = 800, Num_Data_Points = 3, Mean_Quality = 1;
and on a bin with MeanNN = 0 both CVNN and CVSD are NaN. -/
theorem c8_metrics :
    (calculateMetrics [800, 820, 780] [1, 1, 1]).meanNN = some 800 ∧
    (calculateMetrics [800, 820, 780] [1, 1, 1]).sdnn = some 20 ∧
    (calculateMetrics [800, 820, 780] [1, 1, 1]).rmssd =
      some (Real.sqrt 1000) ∧
    (calculateMetrics [800, 820, 780] [1, 1, 1]).sdsd =
      some (Real.sqrt 1800) ∧
    (calculateMetrics [800, 820, 780] [1, 1, 1]).cvnn = some 0.025 ∧
    (calculateMetrics [800, 820, 780] [1, 1, 1]).cvsd =
      some (Real.sqrt 1000 / 800) ∧
    (calculateMetrics [800, 820, 780] [1, 1, 1]).medianNN = some 800 ∧
    (calculateMetrics [800, 820, 780] [1, 1, 1]).numDataPoints = 3 ∧
    (calculateMetrics [800, 820, 780] [1, 1, 1]).meanQuality = some 1 ∧
    (calculateMetrics [1, -1] [1, 1]).cvnn = none ∧
    (calculateMetrics [1, -1] [1, 1]).cvsd = none := by
  refine ⟨?_, ?_, ?_, ?_, ?_, ?_, ?_, ?_, ?_, ?_, ?_⟩ <;>
    unfold calculateMetrics
  · norm_num
  · norm_num [diffsQ, sqrt_400]
  · norm_num [diffsQ]
  · norm_num [diffsQ]
  · norm_num [diffsQ, sqrt_400]
  · norm_num [diffsQ]
  · norm_num [medianQ, List.insertionSort, List.orderedInsert]
  · norm_num
  · norm_num
  · norm_num
  · norm_num

end PpgProc
